import Mathlib

/-!
Verification of the measurement-session core of the my-operator repository.

The Go sources are embedded shallowly:
* Go `map[string]T` becomes an association list `List (String × T)` with
  Go-style assignment (`mapSet`, replacing an existing binding in place) and
  lookup (`mapGet`, with `mapGetD` for Go's zero-value read of a missing key).
* `float64` metric values become `ℚ`; every claim at issue is about the exact
  value stored (structural identities such as `end - start`), never about
  rounding of the binary64 format itself.
* Effects (the snapshot fetcher, the summary writer, the filesystem, clock
  readings) are passed in explicitly; a boolean in the output records whether
  the fetcher was invoked.
-/

namespace Instrumentv2

/-- Go map assignment `m[k] = v`: replace the binding in place, else append. -/
def mapSet {α : Type} (m : List (String × α)) (k : String) (v : α) :
    List (String × α) :=
  match m with
  | [] => [(k, v)]
  | (k', v') :: rest =>
      if k' = k then (k, v) :: rest else (k', v') :: mapSet rest k v

/-- Go map read `m[k]` with the comma-ok form: `some v` when present. -/
def mapGet {α : Type} (m : List (String × α)) (k : String) : Option α :=
  match m with
  | [] => none
  | (k', v) :: rest => if k' = k then some v else mapGet rest k

/-- Go map read of a possibly missing key, yielding the zero value `d`. -/
def mapGetD {α : Type} (m : List (String × α)) (k : String) (d : α) : α :=
  (mapGet m k).getD d

/-- Go `delete(m, k)` / removal of a file from the modelled filesystem. -/
def mapRemove {α : Type} (m : List (String × α)) (k : String) :
    List (String × α) :=
  match m with
  | [] => []
  | (k', v) :: rest => if k' = k then rest else (k', v) :: mapRemove rest k

/-- `MetricMap` from types.go: parsed snapshot, series identity → value. -/
abbrev MetricMap := List (String × ℚ)

/-- `Labels` from types.go. -/
abbrev Labels := List (String × String)

/-- `SessionMeta` from types.go. -/
structure SessionMeta where
  Method : String
  Scope : String
  RunID : String
  Suite : String
  TestCase : String
  Namespace : String
deriving DecidableEq

/-- `MetricScope` from types.go (`"global"` / `"namespaced"`). -/
inductive MetricScope where
  | ScopeGlobal : MetricScope
  | ScopeNamespaced : MetricScope
deriving DecidableEq

/-- `MetricDef` from types.go. -/
structure MetricDef where
  Name : String
  Scope : MetricScope
deriving DecidableEq

/-- `EvaluationPolicy` from types.go. -/
structure EvaluationPolicy where
  AllowParallel : Bool
  OnGlobalInParallel : String
deriving DecidableEq

/-- `SessionResult` from types.go.  The Go struct initialises the four
collections to empty (non-nil) literals in `End`; association lists and Lean
lists represent them, the empty collection being `[]`. -/
structure SessionResult where
  Meta : SessionMeta
  Labels : Labels
  StartTimeUnixMs : Int
  EndTimeUnixMs : Int
  Measurements : List (String × ℚ)
  Skipped : List (String × String)
  Warnings : List String
  Errors : List String
deriving DecidableEq

/-- `Instrument` from instrument.go.  The fetcher and writer are effects and
are supplied at the call sites of `Start`/`End`; `startSnap = none` models the
nil Go map before a successful `Start`. -/
structure Instrument where
  labels : Labels
  meta : SessionMeta
  defs : List MetricDef
  policy : EvaluationPolicy
  startSnap : Option MetricMap
  startAtMs : Int
deriving DecidableEq

/-- `New` from instrument.go (zero values for the snapshot fields). -/
def New (labels : Labels) (meta : SessionMeta) (defs : List MetricDef)
    (pol : EvaluationPolicy) : Instrument :=
  { labels := labels, meta := meta, defs := defs, policy := pol,
    startSnap := none, startAtMs := 0 }

/-- `Start` from instrument.go: fetch, and on success store the snapshot and
the current time.  The fetch outcome and the clock reading are passed in. -/
def Start (i : Instrument) (fetchRes : Except String MetricMap)
    (nowMs : Int) : Instrument × Option String :=
  match fetchRes with
  | Except.error e => (i, some e)
  | Except.ok m => ({ i with startSnap := some m, startAtMs := nowMs }, none)

/-- The error text of `End` when `Start` has not stored a snapshot. -/
def endMsgStartRequired : String :=
  "instrument: Start() must be called before End()"

/-- The error message appended in the `"fail"` policy branch of `End`. -/
def failMsg (name : String) : String :=
  "policy fail: global metric in parallel mode: " ++ name

/-- The warning appended in the `"warn"` policy branch of `End`. -/
def warnMsg (name : String) : String :=
  "global metric used in parallel mode: " ++ name

/-- The warning appended in the default (unknown policy) branch of `End`. -/
def unknownPolicyMsg (pol : String) : String :=
  "unknown OnGlobalInParallel policy; proceeding: " ++ pol

/-- One iteration of the `for _, d := range i.defs` loop in `End`
(instrument.go lines 70–99): missing metric → `Skipped`; then the parallel
policy switch, whose `"skip"` case continues, while `"warn"`, `"fail"` and the
default case fall through to the measurement assignment. -/
def step (pol : EvaluationPolicy) (startSnap endSnap : MetricMap)
    (res : SessionResult) (d : MetricDef) : SessionResult :=
  match mapGet startSnap d.Name, mapGet endSnap d.Name with
  | some vStart, some vEnd =>
      if pol.AllowParallel = true ∧ d.Scope = MetricScope.ScopeGlobal then
        if pol.OnGlobalInParallel = "skip" then
          { res with
            Skipped := mapSet res.Skipped d.Name "global metric in parallel mode" }
        else
          let res1 :=
            if pol.OnGlobalInParallel = "warn" then
              { res with Warnings := res.Warnings ++ [warnMsg d.Name] }
            else if pol.OnGlobalInParallel = "fail" then
              { res with Errors := res.Errors ++ [failMsg d.Name] }
            else
              { res with
                Warnings := res.Warnings ++ [unknownPolicyMsg pol.OnGlobalInParallel] }
          { res1 with
            Measurements := mapSet res1.Measurements d.Name (vEnd - vStart) }
      else
        { res with
          Measurements := mapSet res.Measurements d.Name (vEnd - vStart) }
  | _, _ => { res with Skipped := mapSet res.Skipped d.Name "metric missing" }

/-- The `SessionResult` literal built at the top of `End`, before the loop. -/
def initResult (meta : SessionMeta) (labels : Labels)
    (startAtMs endAtMs : Int) : SessionResult :=
  { Meta := meta, Labels := labels,
    StartTimeUnixMs := startAtMs, EndTimeUnixMs := endAtMs,
    Measurements := [], Skipped := [], Warnings := [], Errors := [] }

/-- The whole metric loop of `End`. -/
def runDefs (defs : List MetricDef) (pol : EvaluationPolicy)
    (startSnap endSnap : MetricMap) (res : SessionResult) : SessionResult :=
  List.foldl (step pol startSnap endSnap) res defs

/-- Observable outcome of one `End` call: whether the fetcher was invoked,
the `SessionResult` constructed (if any), and the error returned. -/
structure EndOut where
  fetcherCalled : Bool
  built : Option SessionResult
  retErr : Option String
deriving DecidableEq

/-- `End` from instrument.go: guard on a missing start snapshot (before any
fetch), second fetch, delta/policy loop, then the optional writer.  The fetch
outcome, the clock reading and the writer's behaviour are passed in. -/
def End (i : Instrument) (fetchRes : Except String MetricMap) (endAtMs : Int)
    (save : Option (SessionResult → Option String)) : EndOut :=
  match i.startSnap with
  | none =>
      { fetcherCalled := false, built := none, retErr := some endMsgStartRequired }
  | some startSnap =>
      match fetchRes with
      | Except.error e => { fetcherCalled := true, built := none, retErr := some e }
      | Except.ok endSnap =>
          let res := runDefs i.defs i.policy startSnap endSnap
            (initResult i.meta i.labels i.startAtMs endAtMs)
          { fetcherCalled := true, built := some res,
            retErr :=
              match save with
              | none => none
              | some f => f res }

end Instrumentv2

namespace Harnessv2

open Instrumentv2

/-- The `\x7b` character, written by code point to keep brace balance in
source text. -/
def braceChar : Char := Char.ofNat 123

/-- Split a character list at every separator character (like
`strings.Split` for a one-character separator): `"a\nb\n"` gives
`["a", "b", ""]`. -/
def splitBy (p : Char → Bool) : List Char → List (List Char)
  | [] => [[]]
  | c :: r =>
      match splitBy p r with
      | [] => [[]]
      | h :: t => if p c then [] :: h :: t else (c :: h) :: t

/-- `strings.TrimSpace`: drop leading and trailing whitespace. -/
def trimChars (l : List Char) : List Char :=
  ((l.dropWhile Char.isWhitespace).reverse.dropWhile Char.isWhitespace).reverse

/-- `strings.HasPrefix(line, "#")`. -/
def startsWithHash (l : List Char) : Bool :=
  match l with
  | c :: _ => c = '#'
  | [] => false

/-- `strings.Fields`: the maximal whitespace-free runs, in order (split at
every whitespace character, then drop the empty pieces). -/
def fieldsC (l : List Char) : List (List Char) :=
  (splitBy Char.isWhitespace l).filter (fun w => w ≠ [])

/-- All characters are decimal digits. -/
def allDigits (l : List Char) : Bool := l.all Char.isDigit

/-- Numeric value of a digit string (most significant first). -/
def natOfDigits (l : List Char) : Nat :=
  l.foldl (fun n c => n * 10 + (c.toNat - 48)) 0

/-- Split a character list at the first character satisfying `p`; the second
component is `some` of the remainder when such a character exists. -/
def splitAtChar (p : Char → Bool) : List Char → List Char × Option (List Char)
  | [] => ([], none)
  | c :: r =>
      if p c then ([], some r)
      else
        let q := splitAtChar p r
        (c :: q.1, q.2)

/-- Mantissa of a decimal literal: digits, optionally with one decimal point;
at least one digit overall (`"5."`, `".5"`, `"5.25"`, `"5"` all parse). -/
def mantissaVal (cs : List Char) : Option ℚ :=
  let q := splitAtChar (fun c => c = '.') cs
  match q.2 with
  | none =>
      if q.1 ≠ [] ∧ allDigits q.1 then some (natOfDigits q.1) else none
  | some fp =>
      if (q.1 ≠ [] ∨ fp ≠ []) ∧ allDigits q.1 ∧ allDigits fp then
        some ((natOfDigits q.1 : ℚ) + (natOfDigits fp : ℚ) / ((10 : ℚ) ^ fp.length))
      else none

/-- Exponent part after `e`/`E`: optional sign, then at least one digit. -/
def exponentVal (cs : List Char) : Option ℤ :=
  match cs with
  | '+' :: r => if r ≠ [] ∧ allDigits r then some (natOfDigits r : ℤ) else none
  | '-' :: r => if r ≠ [] ∧ allDigits r then some (-(natOfDigits r : ℤ)) else none
  | r => if r ≠ [] ∧ allDigits r then some (natOfDigits r : ℤ) else none

/-- Model of Go `strconv.ParseFloat(s, 64)` restricted to finite decimal
literals (optional sign, digits with an optional point, optional exponent);
hex floats, `Inf`/`NaN` and digit underscores are not modelled — no claim
depends on them — and values are kept exact as rationals. -/
def parseValue (cs : List Char) : Option ℚ :=
  let signed : ℚ × List Char :=
    match cs with
    | '+' :: r => (1, r)
    | '-' :: r => (-1, r)
    | r => (1, r)
  let q := splitAtChar (fun c => c = 'e' ∨ c = 'E') signed.2
  match mantissaVal q.1, q.2 with
  | some m, none => some (signed.1 * m)
  | some m, some ecs =>
      match exponentVal ecs with
      | some e => some (signed.1 * m * (10 : ℚ) ^ e)
      | none => none
  | none, _ => none

/-- `series[:strings.Index(series, brace)]`: the prefix before the first
brace (the brace is a one-byte character, so byte slicing agrees with
character slicing). -/
def seriesPlain (series : List Char) : List Char :=
  series.takeWhile (fun c => c ≠ braceChar)

/-- One loop iteration of `ParsePrometheusText` (harness_metrics.go lines
113–133): trim, drop blanks and `#` comments, need at least two fields, parse
`fields[1]`, then store (and, for a labelled series, also accumulate into the
base-name aggregate).  Map keys are the series strings. -/
def parseLine (out : MetricMap) (rawLine : List Char) : MetricMap :=
  let line := trimChars rawLine
  if line = [] ∨ startsWithHash line = true then out
  else
    match fieldsC line with
    | series :: valStr :: _ =>
        match parseValue valStr with
        | none => out
        | some v =>
            if series.any (fun c => c = braceChar) then
              let out1 := mapSet out (String.mk series) v
              let plain := String.mk (seriesPlain series)
              mapSet out1 plain (mapGetD out1 plain 0 + v)
            else mapSet out (String.mk series) v
    | _ => out

/-- The scanner loop of `ParsePrometheusText` over a list of lines. -/
def parseLines (lines : List (List Char)) : MetricMap :=
  lines.foldl parseLine []

/-- `ParsePrometheusText` from harness_metrics.go.  `bufio.Scanner` yields
the `\n`-separated segments (a trailing `\r` would be removed by the
`TrimSpace` in the loop, and the empty segment after a trailing `\n` is
dropped by the blank-line check, so splitting at every `\n` is faithful). -/
def ParsePrometheusText (raw : String) : MetricMap :=
  parseLines (splitBy (fun c => c = '\n') raw.data)

end Harnessv2

namespace Instrumentv2

/-- The modelled filesystem seen by `JSONFileWriter.Save`: path → content. -/
abbrev FS := List (String × String)

/-- The effects `Save` depends on: the clock suffix for the temp-file name,
and the outcome of each fallible operating-system / encoding step. -/
structure SaveEffects where
  nanos : Nat
  mkdirErr : Option String
  createErr : Option String
  encodeRes : Except String String
  closeErr : Option String
  renameErr : Option String

/-- `JSONFileWriter.Save` from json_file_writer.go: nil writer or empty path
is a no-op success; otherwise mkdir, create `<path>.tmp.<nanos>`, encode into
it, close, rename over the destination; the encode and close failure paths
remove the temp file before returning the error.  (A nil receiver and an
empty `Path` both take the first branch and are modelled by `path = ""`.) -/
def Save (path : String) (eff : SaveEffects) (fs : FS) : FS × Option String :=
  if path = "" then (fs, none)
  else
    match eff.mkdirErr with
    | some e => (fs, some e)
    | none =>
        let tmp := path ++ ".tmp." ++ toString eff.nanos
        match eff.createErr with
        | some e => (fs, some e)
        | none =>
            let fs1 := mapSet fs tmp ""
            match eff.encodeRes with
            | Except.error e => (mapRemove fs1 tmp, some e)
            | Except.ok content =>
                let fs2 := mapSet fs1 tmp content
                match eff.closeErr with
                | some e => (mapRemove fs2 tmp, some e)
                | none =>
                    match eff.renameErr with
                    | some e => (fs2, some e)
                    | none => (mapSet (mapRemove fs2 tmp) path content, none)

end Instrumentv2

namespace Instrumentv2

/-- Both snapshots carry the series `n`. -/
def presentBoth (s e : MetricMap) (n : String) : Prop :=
  (mapGet s n).isSome = true ∧ (mapGet e n).isSome = true

/-- The guard of the parallel-policy switch in `End`. -/
def parallelGlobal (pol : EvaluationPolicy) (d : MetricDef) : Prop :=
  pol.AllowParallel = true ∧ d.Scope = MetricScope.ScopeGlobal

/-- The loop body reaches the measurement assignment for `d`: the series is
in both snapshots and the `"skip"` branch is not taken. -/
def measuresDef (pol : EvaluationPolicy) (s e : MetricMap) (d : MetricDef) :
    Prop :=
  presentBoth s e d.Name ∧
    ¬(parallelGlobal pol d ∧ pol.OnGlobalInParallel = "skip")

instance (s e : MetricMap) (n : String) : Decidable (presentBoth s e n) :=
  inferInstanceAs (Decidable (_ ∧ _))

instance (pol : EvaluationPolicy) (d : MetricDef) :
    Decidable (parallelGlobal pol d) :=
  inferInstanceAs (Decidable (_ ∧ _))

instance (pol : EvaluationPolicy) (s e : MetricMap) (d : MetricDef) :
    Decidable (measuresDef pol s e d) :=
  inferInstanceAs (Decidable (_ ∧ _))

/-- The delta `end - start` of series `m`, when present in both snapshots. -/
def deltaOpt (s e : MetricMap) (m : String) : Option ℚ :=
  match mapGet s m, mapGet e m with
  | some a, some b => some (b - a)
  | _, _ => none

/-- The error strings one loop iteration appends for `d` (non-empty exactly
in the `"fail"` branch). -/
def errContrib (pol : EvaluationPolicy) (s e : MetricMap) (d : MetricDef) :
    List String :=
  if presentBoth s e d.Name ∧ parallelGlobal pol d ∧
      pol.OnGlobalInParallel = "fail" then [failMsg d.Name] else []

/-- The reason string the loop stores when it does not measure `d`. -/
def skipReason (pol : EvaluationPolicy) (s e : MetricMap) (d : MetricDef) :
    String :=
  if presentBoth s e d.Name then "global metric in parallel mode"
  else "metric missing"

/-- The warning strings one loop iteration appends for `d`. -/
def warnContrib (pol : EvaluationPolicy) (s e : MetricMap) (d : MetricDef) :
    List String :=
  if presentBoth s e d.Name ∧ parallelGlobal pol d then
    if pol.OnGlobalInParallel = "skip" then []
    else if pol.OnGlobalInParallel = "warn" then [warnMsg d.Name]
    else if pol.OnGlobalInParallel = "fail" then []
    else [unknownPolicyMsg pol.OnGlobalInParallel]
  else []

end Instrumentv2

namespace Harnessv2

open Instrumentv2

/-- How one raw line affects the map entry for key `N` (for `N` without a
brace): `some (true, v)` — a bare-series line whose series is exactly `N`
(the parser overwrites `N` with `v`); `some (false, v)` — a labelled-series
line whose base name is `N` (the parser adds `v` onto the aggregate);
`none` — the line leaves the entry for `N` alone. -/
def lineClass (N : String) (line : List Char) : Option (Bool × ℚ) :=
  let t := trimChars line
  if t = [] ∨ startsWithHash t = true then none
  else
    match fieldsC t with
    | series :: valStr :: _ =>
        match parseValue valStr with
        | none => none
        | some v =>
            if series.any (fun c => c = braceChar) then
              if String.mk (seriesPlain series) = N then some (false, v) else none
            else
              if String.mk series = N then some (true, v) else none
    | _ => none

/-- The labelled-variant contribution of one line to the aggregate for `N`. -/
def labeledContrib (N : String) (line : List Char) : ℚ :=
  match lineClass N line with
  | some (false, v) => v
  | _ => 0

/-- Sum of the labelled-variant contributions of a list of lines. -/
def labeledSum (N : String) (lines : List (List Char)) : ℚ :=
  (lines.map (labeledContrib N)).sum

end Harnessv2

namespace Instrumentv2

theorem mapGet_mapSet_self {α : Type} (m : List (String × α)) (k : String)
    (v : α) : mapGet (mapSet m k v) k = some v := by
  induction m with
  | nil => simp [mapSet, mapGet]
  | cons p rest ih =>
      obtain ⟨k', v'⟩ := p
      by_cases h : k' = k <;> simp [mapSet, mapGet, h, ih]

theorem mapGet_mapSet_ne {α : Type} (m : List (String × α)) {k k' : String}
    (v : α) (h : k' ≠ k) : mapGet (mapSet m k v) k' = mapGet m k' := by
  induction m with
  | nil => simp [mapSet, mapGet, Ne.symm h]
  | cons p rest ih =>
      obtain ⟨k'', v''⟩ := p
      simp only [mapSet]
      by_cases h2 : k'' = k
      · subst h2
        simp [mapGet, Ne.symm h]
      · simp only [if_neg h2, mapGet]
        by_cases h3 : k'' = k' <;> simp [h3, ih]

/-- When the series is in both snapshots, its delta is the difference of the
two stored values. -/
theorem deltaOpt_of_present {s e : MetricMap} {m : String}
    (h : presentBoth s e m) :
    deltaOpt s e m = some ((mapGet e m).getD 0 - (mapGet s m).getD 0) := by
  obtain ⟨h1, h2⟩ := h
  cases hs : mapGet s m with
  | none => rw [hs] at h1; simp at h1
  | some a =>
      cases he : mapGet e m with
      | none => rw [he] at h2; simp at h2
      | some b => simp [deltaOpt, hs, he]

/-- Field-by-field description of one loop iteration of `End`. -/
theorem step_spec (pol : EvaluationPolicy) (s e : MetricMap)
    (res : SessionResult) (d : MetricDef) :
    step pol s e res d =
      { res with
        Measurements :=
          if measuresDef pol s e d then
            mapSet res.Measurements d.Name
              ((mapGet e d.Name).getD 0 - (mapGet s d.Name).getD 0)
          else res.Measurements,
        Skipped :=
          if presentBoth s e d.Name then
            if parallelGlobal pol d ∧ pol.OnGlobalInParallel = "skip" then
              mapSet res.Skipped d.Name "global metric in parallel mode"
            else res.Skipped
          else mapSet res.Skipped d.Name "metric missing",
        Warnings := res.Warnings ++ warnContrib pol s e d,
        Errors := res.Errors ++ errContrib pol s e d } := by
  unfold step
  cases hs : mapGet s d.Name with
  | none =>
      simp [presentBoth, hs, measuresDef, errContrib, warnContrib]
  | some a =>
      cases he : mapGet e d.Name with
      | none =>
          simp [presentBoth, hs, he, measuresDef, errContrib, warnContrib]
      | some b =>
          have hp : presentBoth s e d.Name := by simp [presentBoth, hs, he]
          by_cases hpg : pol.AllowParallel = true ∧ d.Scope = MetricScope.ScopeGlobal
          · by_cases hskip : pol.OnGlobalInParallel = "skip"
            · simp [hpg, hskip, hp, measuresDef, parallelGlobal, errContrib,
                warnContrib, hpg.1, hpg.2]
            · by_cases hwarn : pol.OnGlobalInParallel = "warn"
              · simp [hpg, hskip, hwarn, hp, hs, he, measuresDef, parallelGlobal,
                  errContrib, warnContrib, hpg.1, hpg.2]
              · by_cases hfail : pol.OnGlobalInParallel = "fail"
                · simp [hpg, hskip, hwarn, hfail, hp, hs, he, measuresDef,
                    parallelGlobal, errContrib, warnContrib, hpg.1, hpg.2]
                · simp [hpg, hskip, hwarn, hfail, hp, hs, he, measuresDef,
                    parallelGlobal, errContrib, warnContrib, hpg.1, hpg.2]
          · have hng : ¬ parallelGlobal pol d := by
              simpa [parallelGlobal] using hpg
            simp [hpg, hp, hs, he, measuresDef, parallelGlobal, errContrib,
              warnContrib, hng]

theorem runDefs_nil (pol : EvaluationPolicy) (s e : MetricMap)
    (res : SessionResult) : runDefs [] pol s e res = res := rfl

theorem runDefs_cons (pol : EvaluationPolicy) (s e : MetricMap)
    (res : SessionResult) (d : MetricDef) (defs : List MetricDef) :
    runDefs (d :: defs) pol s e res = runDefs defs pol s e (step pol s e res d) :=
  rfl

/-- The errors of a session are the initial errors followed by the per-def
contributions, in definition order. -/
theorem runDefs_errors (pol : EvaluationPolicy) (s e : MetricMap)
    (defs : List MetricDef) : ∀ res : SessionResult,
    (runDefs defs pol s e res).Errors =
      res.Errors ++ (defs.map (errContrib pol s e)).flatten := by
  induction defs with
  | nil => intro res; simp [runDefs]
  | cons d rest ih =>
      intro res
      rw [runDefs_cons, ih, step_spec]
      simp

/-- The warnings of a session are the initial warnings followed by the
per-def contributions, in definition order. -/
theorem runDefs_warnings (pol : EvaluationPolicy) (s e : MetricMap)
    (defs : List MetricDef) : ∀ res : SessionResult,
    (runDefs defs pol s e res).Warnings =
      res.Warnings ++ (defs.map (warnContrib pol s e)).flatten := by
  induction defs with
  | nil => intro res; simp [runDefs]
  | cons d rest ih =>
      intro res
      rw [runDefs_cons, ih, step_spec]
      simp

/-- Lookup in the measurements map after one loop iteration. -/
theorem step_meas_lookup (pol : EvaluationPolicy) (s e : MetricMap)
    (res : SessionResult) (d : MetricDef) (k : String) :
    mapGet (step pol s e res d).Measurements k =
      if d.Name = k ∧ measuresDef pol s e d then
        some ((mapGet e k).getD 0 - (mapGet s k).getD 0)
      else mapGet res.Measurements k := by
  rw [step_spec]
  by_cases h1 : measuresDef pol s e d
  · by_cases h2 : d.Name = k
    · subst h2
      simp [h1, mapGet_mapSet_self]
    · have h3 : k ≠ d.Name := Ne.symm h2
      simp [h1, h2, mapGet_mapSet_ne _ _ h3]
  · simp [h1]

/-- Lookup in the skipped map after one loop iteration. -/
theorem step_skip_lookup (pol : EvaluationPolicy) (s e : MetricMap)
    (res : SessionResult) (d : MetricDef) (k : String) :
    mapGet (step pol s e res d).Skipped k =
      if d.Name = k ∧ ¬ measuresDef pol s e d then
        some (skipReason pol s e d)
      else mapGet res.Skipped k := by
  rw [step_spec]
  by_cases hp : presentBoth s e d.Name
  · by_cases hsk : parallelGlobal pol d ∧ pol.OnGlobalInParallel = "skip"
    · have hm : ¬ measuresDef pol s e d := by
        intro hm; exact hm.2 hsk
      by_cases h2 : d.Name = k
      · subst h2
        simp [hp, hsk, hm, skipReason, mapGet_mapSet_self]
      · have h3 : k ≠ d.Name := Ne.symm h2
        simp [hp, hsk, hm, h2, mapGet_mapSet_ne _ _ h3]
    · have hm : measuresDef pol s e d := ⟨hp, hsk⟩
      simp [hp, hsk, hm]
  · have hm : ¬ measuresDef pol s e d := fun hm => hp hm.1
    by_cases h2 : d.Name = k
    · subst h2
      simp [hp, hm, skipReason, mapGet_mapSet_self]
    · have h3 : k ≠ d.Name := Ne.symm h2
      simp [hp, hm, h2, mapGet_mapSet_ne _ _ h3]

/-- A measurement equal to the delta stays equal to the delta through the
rest of the loop (any later write to the same key writes the same delta). -/
theorem runDefs_meas_preserve (pol : EvaluationPolicy) (s e : MetricMap)
    (m : String) (defs : List MetricDef) : ∀ res : SessionResult,
    mapGet res.Measurements m = deltaOpt s e m →
    mapGet (runDefs defs pol s e res).Measurements m = deltaOpt s e m := by
  induction defs with
  | nil =>
      intro res h
      simpa [runDefs] using h
  | cons d rest ih =>
      intro res h
      rw [runDefs_cons]
      apply ih
      rw [step_meas_lookup]
      by_cases hc : d.Name = m ∧ measuresDef pol s e d
      · rw [if_pos hc]
        have hpres : presentBoth s e m := hc.1 ▸ hc.2.1
        rw [deltaOpt_of_present hpres]
      · rw [if_neg hc]
        exact h

/-- If some definition in the list measures series `m`, the final
measurements map carries the delta for `m`. -/
theorem runDefs_meas_of_mem (pol : EvaluationPolicy) (s e : MetricMap)
    (m : String) (defs : List MetricDef) : ∀ res : SessionResult,
    (∃ d ∈ defs, d.Name = m ∧ measuresDef pol s e d) →
    mapGet (runDefs defs pol s e res).Measurements m = deltaOpt s e m := by
  induction defs with
  | nil =>
      rintro res ⟨d, hd, -⟩
      simp at hd
  | cons d rest ih =>
      rintro res ⟨d', hd', hname, hmeas⟩
      rw [runDefs_cons]
      rcases List.mem_cons.mp hd' with h | h
      · subst h
        apply runDefs_meas_preserve
        rw [step_meas_lookup, if_pos ⟨hname, hmeas⟩]
        have hpres : presentBoth s e m := hname ▸ hmeas.1
        rw [deltaOpt_of_present hpres]
      · exact ih _ ⟨d', h, hname, hmeas⟩

/-- Definitions whose names avoid `k` leave both maps unchanged at `k`. -/
theorem runDefs_untouched (pol : EvaluationPolicy) (s e : MetricMap)
    (k : String) (defs : List MetricDef) : ∀ res : SessionResult,
    (∀ d ∈ defs, d.Name ≠ k) →
    mapGet (runDefs defs pol s e res).Measurements k =
        mapGet res.Measurements k ∧
      mapGet (runDefs defs pol s e res).Skipped k = mapGet res.Skipped k := by
  induction defs with
  | nil =>
      intro res _
      simp [runDefs]
  | cons d rest ih =>
      intro res hn
      rw [runDefs_cons]
      have hd : d.Name ≠ k := hn d (List.mem_cons_self d rest)
      have hrest : ∀ d' ∈ rest, d'.Name ≠ k := fun d' h =>
        hn d' (List.mem_cons_of_mem d h)
      obtain ⟨h1, h2⟩ := ih (step pol s e res d) hrest
      constructor
      · rw [h1, step_meas_lookup, if_neg (fun hc => hd hc.1)]
      · rw [h2, step_skip_lookup, if_neg (fun hc => hd hc.1)]

/-- The policy-fail error message determines the metric name. -/
theorem failMsg_inj {a b : String} (h : failMsg a = failMsg b) : a = b := by
  have h2 : (failMsg a).data = (failMsg b).data := congrArg String.data h
  have ha : (failMsg a).data =
      ("policy fail: global metric in parallel mode: ").data ++ a.data := rfl
  have hb : (failMsg b).data =
      ("policy fail: global metric in parallel mode: ").data ++ b.data := rfl
  rw [ha, hb] at h2
  have h3 := List.append_cancel_left h2
  cases a with
  | mk la =>
      cases b with
      | mk lb => exact congrArg String.mk h3

/-- The unknown-policy warning is never the parallel-usage warning (their
first characters differ). -/
theorem unknownPolicyMsg_ne_warnMsg (p n : String) :
    unknownPolicyMsg p ≠ warnMsg n := by
  intro h
  have h2 : (unknownPolicyMsg p).data.head? = (warnMsg n).data.head? := by
    rw [h]
  have hu : (unknownPolicyMsg p).data.head? = some 'u' := rfl
  have hg : (warnMsg n).data.head? = some 'g' := rfl
  rw [hu, hg] at h2
  exact absurd (Option.some.inj h2) (by decide)

/-- How many times the policy-fail message for `m` occurs among the error
contributions: once per definition named `m` that takes the `"fail"`
branch. -/
theorem errContrib_count (pol : EvaluationPolicy) (s e : MetricMap)
    (m : String) (defs : List MetricDef) :
    ((defs.map (errContrib pol s e)).flatten).count (failMsg m) =
      defs.countP (fun d' =>
        decide (d'.Name = m ∧ presentBoth s e d'.Name ∧ parallelGlobal pol d' ∧
          pol.OnGlobalInParallel = "fail")) := by
  induction defs with
  | nil => simp
  | cons d rest ih =>
      rw [List.map_cons, List.flatten_cons, List.count_append, ih,
        List.countP_cons]
      unfold errContrib
      by_cases hc : presentBoth s e d.Name ∧ parallelGlobal pol d ∧
          pol.OnGlobalInParallel = "fail"
      · rw [if_pos hc]
        by_cases hn : d.Name = m
        · subst hn
          simp [hc, List.count_cons]
          omega
        · have : failMsg d.Name ≠ failMsg m := fun h => hn (failMsg_inj h)
          simp [List.count_cons, this, hn]
      · rw [if_neg hc]
        have : ¬(d.Name = m ∧ presentBoth s e d.Name ∧ parallelGlobal pol d ∧
            pol.OnGlobalInParallel = "fail") := fun h => hc h.2
        simp [this]

/-- A key in the measurements map after one iteration was written by `d` or
was already there. -/
theorem step_meas_isSome (pol : EvaluationPolicy) (s e : MetricMap)
    (res : SessionResult) (d : MetricDef) (k : String)
    (h : (mapGet (step pol s e res d).Measurements k).isSome = true) :
    k = d.Name ∨ (mapGet res.Measurements k).isSome = true := by
  rw [step_meas_lookup] at h
  by_cases hc : d.Name = k ∧ measuresDef pol s e d
  · exact Or.inl hc.1.symm
  · rw [if_neg hc] at h
    exact Or.inr h

/-- A key in the skipped map after one iteration was written by `d` or was
already there. -/
theorem step_skip_isSome (pol : EvaluationPolicy) (s e : MetricMap)
    (res : SessionResult) (d : MetricDef) (k : String)
    (h : (mapGet (step pol s e res d).Skipped k).isSome = true) :
    k = d.Name ∨ (mapGet res.Skipped k).isSome = true := by
  rw [step_skip_lookup] at h
  by_cases hc : d.Name = k ∧ ¬ measuresDef pol s e d
  · exact Or.inl hc.1.symm
  · rw [if_neg hc] at h
    exact Or.inr h

/-- Under pairwise-distinct definition names, the loop keeps the
measurements and skipped key sets disjoint, and only ever writes keys that
are definition names. -/
theorem runDefs_disjoint_domain (pol : EvaluationPolicy) (s e : MetricMap) :
    ∀ (defs : List MetricDef) (res : SessionResult),
    (defs.map MetricDef.Name).Nodup →
    (∀ k, ((mapGet res.Measurements k).isSome = true ∨
        (mapGet res.Skipped k).isSome = true) →
      k ∉ defs.map MetricDef.Name) →
    (∀ k, ¬((mapGet res.Measurements k).isSome = true ∧
        (mapGet res.Skipped k).isSome = true)) →
    (∀ k, ¬((mapGet (runDefs defs pol s e res).Measurements k).isSome = true ∧
        (mapGet (runDefs defs pol s e res).Skipped k).isSome = true)) ∧
    (∀ k, ((mapGet (runDefs defs pol s e res).Measurements k).isSome = true ∨
        (mapGet (runDefs defs pol s e res).Skipped k).isSome = true) →
      (k ∈ defs.map MetricDef.Name ∨
        ((mapGet res.Measurements k).isSome = true ∨
          (mapGet res.Skipped k).isSome = true))) := by
  intro defs
  induction defs with
  | nil =>
      intro res _ _ hdisj
      refine ⟨fun k => by simpa [runDefs] using hdisj k, fun k h => ?_⟩
      right
      simpa [runDefs] using h
  | cons d rest ih =>
      intro res hnodup hfresh hdisj
      rw [List.map_cons, List.nodup_cons] at hnodup
      have hdn : d.Name ∉ rest.map MetricDef.Name := hnodup.1
      have hfresh' : ∀ k,
          ((mapGet (step pol s e res d).Measurements k).isSome = true ∨
            (mapGet (step pol s e res d).Skipped k).isSome = true) →
          k ∉ rest.map MetricDef.Name := by
        intro k hk
        rcases hk with hk | hk
        · rcases step_meas_isSome pol s e res d k hk with h | h
          · subst h; exact hdn
          · intro hmem
            exact hfresh k (Or.inl h) (List.mem_cons_of_mem _ hmem)
        · rcases step_skip_isSome pol s e res d k hk with h | h
          · subst h; exact hdn
          · intro hmem
            exact hfresh k (Or.inr h) (List.mem_cons_of_mem _ hmem)
      have hdisj' : ∀ k,
          ¬((mapGet (step pol s e res d).Measurements k).isSome = true ∧
            (mapGet (step pol s e res d).Skipped k).isSome = true) := by
        rintro k ⟨hm, hs⟩
        by_cases hk : k = d.Name
        · subst hk
          by_cases hmd : measuresDef pol s e d
          · rw [step_skip_lookup, if_neg (fun hc => hc.2 hmd)] at hs
            exact hfresh _ (Or.inr hs) (List.mem_cons_self _ _)
          · rw [step_meas_lookup, if_neg (fun hc => hmd hc.2)] at hm
            exact hfresh _ (Or.inl hm) (List.mem_cons_self _ _)
        · rw [step_meas_lookup, if_neg (fun hc => hk hc.1.symm)] at hm
          rw [step_skip_lookup, if_neg (fun hc => hk hc.1.symm)] at hs
          exact hdisj k ⟨hm, hs⟩
      obtain ⟨c1, c2⟩ := ih (step pol s e res d) hnodup.2 hfresh' hdisj'
      rw [runDefs_cons]
      refine ⟨c1, fun k hk => ?_⟩
      rcases c2 k hk with h | h
      · exact Or.inl (List.mem_cons_of_mem _ h)
      · rcases h with h | h
        · rcases step_meas_isSome pol s e res d k h with h2 | h2
          · exact Or.inl (h2 ▸ List.mem_cons_self _ _)
          · exact Or.inr (Or.inl h2)
        · rcases step_skip_isSome pol s e res d k h with h2 | h2
          · exact Or.inl (h2 ▸ List.mem_cons_self _ _)
          · exact Or.inr (Or.inr h2)

/-- C5: calling `End` on a session without a prior successful `Start`
(`startSnap` still nil) fails with the distinct "Start must precede End"
error, the error is returned to the caller, and the snapshot fetcher is not
invoked (no result is built either). -/
theorem C5_end_before_start (i : Instrument) (fetchRes : Except String MetricMap)
    (endAtMs : Int) (save : Option (SessionResult → Option String))
    (h : i.startSnap = none) :
    End i fetchRes endAtMs save =
      { fetcherCalled := false, built := none,
        retErr := some endMsgStartRequired } := by
  simp [End, h]

/-- Setting a fresh key and then removing it restores the original map. -/
theorem mapRemove_mapSet_of_absent {α : Type} (m : List (String × α))
    (k : String) (v : α) (h : mapGet m k = none) :
    mapRemove (mapSet m k v) k = m := by
  induction m with
  | nil => simp [mapSet, mapRemove]
  | cons p rest ih =>
      obtain ⟨k', v'⟩ := p
      by_cases hk : k' = k
      · rw [mapGet, if_pos hk] at h
        exact absurd h (by simp)
      · rw [mapGet, if_neg hk] at h
        simp only [mapSet, if_neg hk, mapRemove, if_neg hk]
        rw [ih h]

/-- C8: the reference Result Sink.  With an empty/unset destination path,
`Save` is a no-op success.  When the JSON encode step fails (with the temp
name fresh, as the nanosecond suffix makes it), `Save` returns the encoder's
error, no residual temp file remains (it is removed), and the destination
path maps to exactly what it mapped to before — the rename step is never
reached. -/
theorem C8_save_empty_and_encode_fail (eff : SaveEffects) (fs : FS)
    (path errStr : String)
    (hpath : path ≠ "") (hmk : eff.mkdirErr = none) (hcr : eff.createErr = none)
    (henc : eff.encodeRes = Except.error errStr)
    (hfresh : mapGet fs (path ++ ".tmp." ++ toString eff.nanos) = none) :
    (∀ (eff2 : SaveEffects) (fs2 : FS), Save "" eff2 fs2 = (fs2, none)) ∧
    (Save path eff fs).2 = some errStr ∧
    mapGet (Save path eff fs).1 (path ++ ".tmp." ++ toString eff.nanos) = none ∧
    mapGet (Save path eff fs).1 path = mapGet fs path := by
  have hsave : Save path eff fs =
      (mapRemove (mapSet fs (path ++ ".tmp." ++ toString eff.nanos) "")
        (path ++ ".tmp." ++ toString eff.nanos), some errStr) := by
    simp [Save, hpath, hmk, hcr, henc]
  have hres : mapRemove (mapSet fs (path ++ ".tmp." ++ toString eff.nanos) "")
      (path ++ ".tmp." ++ toString eff.nanos) = fs :=
    mapRemove_mapSet_of_absent fs _ "" hfresh
  refine ⟨fun eff2 fs2 => by simp [Save], ?_, ?_, ?_⟩
  · rw [hsave]
  · rw [hsave]
    simp only
    rw [hres]
    exact hfresh
  · rw [hsave]
    simp only
    rw [hres]

theorem C8_witness :
    (∀ (eff2 : SaveEffects) (fs2 : FS), Save "" eff2 fs2 = (fs2, none)) ∧
    (Save "/a/out.json" ⟨5, none, none, Except.error "boom", none, none⟩
        [("/a/out.json", "old")]).2 = some "boom" ∧
    mapGet (Save "/a/out.json" ⟨5, none, none, Except.error "boom", none, none⟩
        [("/a/out.json", "old")]).1
      ("/a/out.json" ++ ".tmp." ++ toString (5 : Nat)) = none ∧
    mapGet (Save "/a/out.json" ⟨5, none, none, Except.error "boom", none, none⟩
        [("/a/out.json", "old")]).1 "/a/out.json" =
      mapGet [("/a/out.json", "old")] "/a/out.json" :=
  C8_save_empty_and_encode_fail ⟨5, none, none, Except.error "boom", none, none⟩
    [("/a/out.json", "old")] "/a/out.json" "boom" (by decide) rfl rfl rfl
    (by decide)

theorem C5_witness :
    End (New [] ⟨"", "", "", "", "", ""⟩ [] ⟨false, ""⟩) (Except.ok []) 0 none =
      { fetcherCalled := false, built := none,
        retErr := some endMsgStartRequired } :=
  C5_end_before_start _ _ _ _ rfl

/-- C2 counterexample: a session that has already completed a successful
`Start` (its start snapshot is stored) accepts a second `Start`: the call
returns no error and transitions again, overwriting the stored snapshot and
start time — contradicting "a second call to Start does not succeed". -/
theorem C2_counterexample :
    Start { labels := [], meta := ⟨"", "", "", "", "", ""⟩, defs := [],
            policy := ⟨false, ""⟩, startSnap := some [("c", 10)], startAtMs := 1 }
        (Except.ok [("c", 20)]) 2 =
      ({ labels := [], meta := ⟨"", "", "", "", "", ""⟩, defs := [],
         policy := ⟨false, ""⟩, startSnap := some [("c", 20)], startAtMs := 2 },
        none) := rfl

/-- C2 (amended): `Start` performs no state-machine check.  On a session
already in the Started state, a second `Start` whose fetch succeeds returns
no error and stores the new snapshot and clock reading over the old ones. -/
theorem C2_start_twice_succeeds (i : Instrument) (m0 m : MetricMap)
    (nowMs : Int) (h : i.startSnap = some m0) :
    Start i (Except.ok m) nowMs =
      ({ i with startSnap := some m, startAtMs := nowMs }, none) := rfl

theorem C2_witness :
    Start { labels := [], meta := ⟨"", "", "", "", "", ""⟩, defs := [],
            policy := ⟨false, ""⟩, startSnap := some [("c", 10)], startAtMs := 1 }
        (Except.ok [("c", 30)]) 5 =
      ({ labels := [], meta := ⟨"", "", "", "", "", ""⟩, defs := [],
         policy := ⟨false, ""⟩, startSnap := some [("c", 30)], startAtMs := 5 },
        none) :=
  C2_start_twice_succeeds _ [("c", 10)] [("c", 30)] 5 rfl

/-- C6: when series `d.Name` is in both snapshots and the policy does not
suppress it (the `"skip"` branch is not taken), the recorded measurement is
exactly `end - start` — no rounding, clamping, or rejection of negative
deltas happens at this layer. -/
theorem C6_delta_exact (lb : Labels) (mt : SessionMeta) (defs : List MetricDef)
    (pol : EvaluationPolicy) (s e : MetricMap) (t0 t1 : Int) (d : MetricDef)
    (a b : ℚ) (hd : d ∈ defs)
    (hs : mapGet s d.Name = some a) (he : mapGet e d.Name = some b)
    (hns : ¬(parallelGlobal pol d ∧ pol.OnGlobalInParallel = "skip")) :
    ((End ⟨lb, mt, defs, pol, some s, t0⟩ (Except.ok e) t1 none).built.map
        (fun r => mapGet r.Measurements d.Name)) = some (some (b - a)) := by
  have hmeas : measuresDef pol s e d := ⟨⟨by simp [hs], by simp [he]⟩, hns⟩
  have hEnd : (End ⟨lb, mt, defs, pol, some s, t0⟩ (Except.ok e) t1 none).built =
      some (runDefs defs pol s e (initResult mt lb t0 t1)) := rfl
  rw [hEnd]
  have h := runDefs_meas_of_mem pol s e d.Name defs (initResult mt lb t0 t1)
      ⟨d, hd, rfl, hmeas⟩
  simp only [Option.map_some']
  rw [h]
  simp [deltaOpt, hs, he]

theorem C6_witness :
    ((End ⟨[], ⟨"", "", "", "", "", ""⟩, [⟨"c", MetricScope.ScopeNamespaced⟩],
          ⟨false, ""⟩, some [("c", 10)], 0⟩ (Except.ok [("c", 15)]) 7
        none).built.map (fun r => mapGet r.Measurements "c")) =
      some (some (15 - 10)) :=
  C6_delta_exact [] ⟨"", "", "", "", "", ""⟩ [⟨"c", MetricScope.ScopeNamespaced⟩]
    ⟨false, ""⟩ [("c", 10)] [("c", 15)] 0 7 ⟨"c", MetricScope.ScopeNamespaced⟩
    10 15 (List.mem_singleton.mpr rfl) (by simp [mapGet]) (by simp [mapGet])
    (by simp [parallelGlobal])

/-- C1 counterexample: with `allowParallel` and policy `"fail"`, a Global
metric present in both snapshots gets one policy-fail entry in `errors`, but
the measurement is NOT suppressed — the metric is present in `measurements`
with the delta (the Go `"fail"` case has no `continue`), contradicting "no
measurement is produced for that metric". -/
theorem C1_counterexample :
    ((End { labels := [], meta := ⟨"", "", "", "", "", ""⟩,
            defs := [⟨"g", MetricScope.ScopeGlobal⟩],
            policy := ⟨true, "fail"⟩,
            startSnap := some [("g", 10)], startAtMs := 0 }
          (Except.ok [("g", 15)]) 7 none).built.map
        (fun r => (mapGet r.Measurements "g", r.Errors))) =
      some (some 5, [failMsg "g"]) ∧ (some (5 : ℚ) : Option ℚ) ≠ none := by
  constructor
  · simp [End, runDefs, step, initResult, mapGet, mapSet]
    norm_num
  · simp

/-- C1 (amended): with `allowParallel` and policy `"fail"`, for a Global
metric definition `d` (unique among the definitions for its name) present in
both snapshots, exactly one policy-fail entry is appended to `errors` AND
the metric is still measured: `d.Name` is present in `measurements` with the
delta `end - start`. -/
theorem C1_fail_records_error_and_measures
    (lb : Labels) (mt : SessionMeta) (defs : List MetricDef)
    (pol : EvaluationPolicy) (s e : MetricMap) (t0 t1 : Int) (d : MetricDef)
    (a b : ℚ)
    (hpar : pol.AllowParallel = true) (hpol : pol.OnGlobalInParallel = "fail")
    (hd : d ∈ defs) (hscope : d.Scope = MetricScope.ScopeGlobal)
    (huniq : defs.countP (fun x => decide (x.Name = d.Name)) = 1)
    (hs : mapGet s d.Name = some a) (he : mapGet e d.Name = some b) :
    ((End ⟨lb, mt, defs, pol, some s, t0⟩ (Except.ok e) t1 none).built.map
        (fun r =>
          (r.Errors.count (failMsg d.Name), mapGet r.Measurements d.Name))) =
      some (1, some (b - a)) := by
  have hEnd : (End ⟨lb, mt, defs, pol, some s, t0⟩ (Except.ok e) t1 none).built =
      some (runDefs defs pol s e (initResult mt lb t0 t1)) := rfl
  have hmeas : measuresDef pol s e d :=
    ⟨⟨by simp [hs], by simp [he]⟩, fun hc => by
      rw [hpol] at hc
      exact absurd hc.2 (by decide)⟩
  have h2 : mapGet (runDefs defs pol s e (initResult mt lb t0 t1)).Measurements
      d.Name = some (b - a) := by
    rw [runDefs_meas_of_mem pol s e d.Name defs (initResult mt lb t0 t1)
      ⟨d, hd, rfl, hmeas⟩]
    simp [deltaOpt, hs, he]
  have h1 : (runDefs defs pol s e (initResult mt lb t0 t1)).Errors.count
      (failMsg d.Name) = 1 := by
    rw [runDefs_errors]
    have hinit : (initResult mt lb t0 t1).Errors = [] := rfl
    rw [hinit, List.nil_append, errContrib_count]
    have hle : defs.countP (fun x =>
        decide (x.Name = d.Name ∧ presentBoth s e x.Name ∧
          parallelGlobal pol x ∧ pol.OnGlobalInParallel = "fail")) ≤
        defs.countP (fun x => decide (x.Name = d.Name)) := by
      apply List.countP_mono_left
      intro x _ hx
      simp only [decide_eq_true_eq] at hx ⊢
      exact hx.1
    have hpos : 0 < defs.countP (fun x =>
        decide (x.Name = d.Name ∧ presentBoth s e x.Name ∧
          parallelGlobal pol x ∧ pol.OnGlobalInParallel = "fail")) := by
      rw [List.countP_pos_iff]
      refine ⟨d, hd, ?_⟩
      simp only [decide_eq_true_eq]
      exact ⟨by trivial, ⟨by simp [hs], by simp [he]⟩, ⟨hpar, hscope⟩, hpol⟩
    omega
  rw [hEnd]
  simp [h1, h2]

theorem C1_witness :
    ((End ⟨[], ⟨"", "", "", "", "", ""⟩, [⟨"g", MetricScope.ScopeGlobal⟩],
          ⟨true, "fail"⟩, some [("g", 10)], 0⟩ (Except.ok [("g", 15)]) 7
        none).built.map
        (fun r => (r.Errors.count (failMsg "g"), mapGet r.Measurements "g"))) =
      some (1, some (15 - 10)) :=
  C1_fail_records_error_and_measures [] ⟨"", "", "", "", "", ""⟩
    [⟨"g", MetricScope.ScopeGlobal⟩] ⟨true, "fail"⟩ [("g", 10)] [("g", 15)]
    0 7 ⟨"g", MetricScope.ScopeGlobal⟩ 10 15 rfl rfl
    (List.mem_singleton.mpr rfl) rfl (by simp) (by simp [mapGet])
    (by simp [mapGet])

/-- C4 counterexample: with `allowParallel` and the unrecognized policy
string `"bogus"`, the warnings list holds ONLY the unrecognized-policy
warning; the Warn-case parallel-usage warning is not also appended —
contradicting "behavior equals the Warn case plus one additional warning". -/
theorem C4_counterexample :
    ((End { labels := [], meta := ⟨"", "", "", "", "", ""⟩,
            defs := [⟨"g", MetricScope.ScopeGlobal⟩],
            policy := ⟨true, "bogus"⟩,
            startSnap := some [("g", 10)], startAtMs := 0 }
          (Except.ok [("g", 15)]) 7 none).built.map
        (fun r => r.Warnings)) = some [unknownPolicyMsg "bogus"] ∧
      warnMsg "g" ∉ [unknownPolicyMsg "bogus"] := by
  constructor
  · simp [End, runDefs, step, initResult, mapGet, mapSet]
  · decide

/-- C4 (amended): with `allowParallel` and an unrecognized
`onGlobalInParallel` string, a Global metric present in both snapshots is
measured normally (delta recorded), and exactly one warning is appended:
the unrecognized-policy warning.  The Warn-case parallel-usage warning is
NOT also appended. -/
theorem C4_unknown_policy_single_warning
    (lb : Labels) (mt : SessionMeta) (pol : EvaluationPolicy) (s e : MetricMap)
    (t0 t1 : Int) (d : MetricDef) (a b : ℚ)
    (hpar : pol.AllowParallel = true) (hscope : d.Scope = MetricScope.ScopeGlobal)
    (h1 : pol.OnGlobalInParallel ≠ "skip") (h2 : pol.OnGlobalInParallel ≠ "warn")
    (h3 : pol.OnGlobalInParallel ≠ "fail")
    (hs : mapGet s d.Name = some a) (he : mapGet e d.Name = some b) :
    ((End ⟨lb, mt, [d], pol, some s, t0⟩ (Except.ok e) t1 none).built.map
        (fun r => (r.Warnings, mapGet r.Measurements d.Name))) =
      some ([unknownPolicyMsg pol.OnGlobalInParallel], some (b - a)) ∧
    warnMsg d.Name ∉ [unknownPolicyMsg pol.OnGlobalInParallel] := by
  constructor
  · have hEnd : (End ⟨lb, mt, [d], pol, some s, t0⟩ (Except.ok e) t1 none).built =
        some (runDefs [d] pol s e (initResult mt lb t0 t1)) := rfl
    have hmeas : measuresDef pol s e d :=
      ⟨⟨by simp [hs], by simp [he]⟩, fun hc => h1 hc.2⟩
    have hw : (runDefs [d] pol s e (initResult mt lb t0 t1)).Warnings =
        [unknownPolicyMsg pol.OnGlobalInParallel] := by
      rw [runDefs_warnings]
      have hinit : (initResult mt lb t0 t1).Warnings = [] := rfl
      rw [hinit, List.nil_append]
      simp [warnContrib, presentBoth, hs, he, parallelGlobal, hpar, hscope,
        h1, h2, h3]
    have hm : mapGet (runDefs [d] pol s e (initResult mt lb t0 t1)).Measurements
        d.Name = some (b - a) := by
      rw [runDefs_meas_of_mem pol s e d.Name [d] (initResult mt lb t0 t1)
        ⟨d, List.mem_singleton.mpr rfl, rfl, hmeas⟩]
      simp [deltaOpt, hs, he]
    rw [hEnd]
    simp [hw, hm]
  · rw [List.mem_singleton]
    exact fun h => (unknownPolicyMsg_ne_warnMsg pol.OnGlobalInParallel d.Name) h.symm

theorem C4_witness :
    ((End ⟨[], ⟨"", "", "", "", "", ""⟩, [⟨"g", MetricScope.ScopeGlobal⟩],
          ⟨true, "unexpected"⟩, some [("g", 10)], 0⟩ (Except.ok [("g", 15)]) 7
        none).built.map (fun r => (r.Warnings, mapGet r.Measurements "g"))) =
        some ([unknownPolicyMsg "unexpected"], some (15 - 10)) ∧
      warnMsg "g" ∉ [unknownPolicyMsg "unexpected"] :=
  C4_unknown_policy_single_warning [] ⟨"", "", "", "", "", ""⟩
    ⟨true, "unexpected"⟩ [("g", 10)] [("g", 15)] 0 7
    ⟨"g", MetricScope.ScopeGlobal⟩ 10 15 rfl rfl (by decide) (by decide)
    (by decide) (by simp [mapGet]) (by simp [mapGet])

/-- C10 counterexample: two definitions sharing the name `"m"` but with
different scopes, under `allowParallel` and policy `"skip"`, leave `"m"`
present in BOTH `measurements` (written by the Namespaced def) and `skipped`
(written by the Global def) — the key sets are not disjoint. -/
theorem C10_counterexample :
    ((End { labels := [], meta := ⟨"", "", "", "", "", ""⟩,
            defs := [⟨"m", MetricScope.ScopeGlobal⟩,
                     ⟨"m", MetricScope.ScopeNamespaced⟩],
            policy := ⟨true, "skip"⟩,
            startSnap := some [("m", 1)], startAtMs := 0 }
          (Except.ok [("m", 3)]) 7 none).built.map
        (fun r => (mapGet r.Measurements "m", mapGet r.Skipped "m"))) =
      some (some 2, some "global metric in parallel mode") := by
  simp [End, runDefs, step, initResult, mapGet, mapSet]
  norm_num

/-- C10 (amended): for a successful `End`, provided no two supplied metric
definitions share a Name, the `measurements` and `skipped` key sets are
disjoint; every key of either map is the Name of some supplied definition;
and with an empty definition list all four collections are present and
empty. -/
theorem C10_result_maps (lb : Labels) (mt : SessionMeta) (defs : List MetricDef)
    (pol : EvaluationPolicy) (s e : MetricMap) (t0 t1 : Int)
    (hnodup : (defs.map MetricDef.Name).Nodup) :
    (End ⟨lb, mt, defs, pol, some s, t0⟩ (Except.ok e) t1 none).built =
        some (runDefs defs pol s e (initResult mt lb t0 t1)) ∧
    (∀ k, ¬((mapGet (runDefs defs pol s e
          (initResult mt lb t0 t1)).Measurements k).isSome = true ∧
        (mapGet (runDefs defs pol s e
          (initResult mt lb t0 t1)).Skipped k).isSome = true)) ∧
    (∀ k, ((mapGet (runDefs defs pol s e
          (initResult mt lb t0 t1)).Measurements k).isSome = true ∨
        (mapGet (runDefs defs pol s e
          (initResult mt lb t0 t1)).Skipped k).isSome = true) →
      k ∈ defs.map MetricDef.Name) ∧
    (defs = [] →
      runDefs defs pol s e (initResult mt lb t0 t1) = initResult mt lb t0 t1 ∧
      (initResult mt lb t0 t1).Measurements = [] ∧
      (initResult mt lb t0 t1).Skipped = [] ∧
      (initResult mt lb t0 t1).Warnings = [] ∧
      (initResult mt lb t0 t1).Errors = []) := by
  have hfresh : ∀ k,
      ((mapGet (initResult mt lb t0 t1).Measurements k).isSome = true ∨
        (mapGet (initResult mt lb t0 t1).Skipped k).isSome = true) →
      k ∉ defs.map MetricDef.Name := by
    intro k hk
    simp [initResult, mapGet] at hk
  have hdisj : ∀ k,
      ¬((mapGet (initResult mt lb t0 t1).Measurements k).isSome = true ∧
        (mapGet (initResult mt lb t0 t1).Skipped k).isSome = true) := by
    intro k hk
    simp [initResult, mapGet] at hk
  obtain ⟨c1, c2⟩ := runDefs_disjoint_domain pol s e defs
    (initResult mt lb t0 t1) hnodup hfresh hdisj
  refine ⟨rfl, c1, fun k hk => ?_, fun hempty => ?_⟩
  · rcases c2 k hk with h | h
    · exact h
    · exact absurd h (by simp [initResult, mapGet])
  · subst hempty
    exact ⟨rfl, rfl, rfl, rfl, rfl⟩

theorem C10_witness :
    (End ⟨[], ⟨"", "", "", "", "", ""⟩, [⟨"c", MetricScope.ScopeNamespaced⟩],
        ⟨false, ""⟩, some [("c", 1)], 0⟩ (Except.ok []) 7 none).built =
        some (runDefs [⟨"c", MetricScope.ScopeNamespaced⟩] ⟨false, ""⟩
          [("c", 1)] [] (initResult ⟨"", "", "", "", "", ""⟩ [] 0 7)) ∧
    (∀ k, ¬((mapGet (runDefs [⟨"c", MetricScope.ScopeNamespaced⟩] ⟨false, ""⟩
          [("c", 1)] [] (initResult ⟨"", "", "", "", "", ""⟩ [] 0
            7)).Measurements k).isSome = true ∧
        (mapGet (runDefs [⟨"c", MetricScope.ScopeNamespaced⟩] ⟨false, ""⟩
          [("c", 1)] [] (initResult ⟨"", "", "", "", "", ""⟩ [] 0
            7)).Skipped k).isSome = true)) ∧
    (∀ k, ((mapGet (runDefs [⟨"c", MetricScope.ScopeNamespaced⟩] ⟨false, ""⟩
          [("c", 1)] [] (initResult ⟨"", "", "", "", "", ""⟩ [] 0
            7)).Measurements k).isSome = true ∨
        (mapGet (runDefs [⟨"c", MetricScope.ScopeNamespaced⟩] ⟨false, ""⟩
          [("c", 1)] [] (initResult ⟨"", "", "", "", "", ""⟩ [] 0
            7)).Skipped k).isSome = true) →
      k ∈ [⟨"c", MetricScope.ScopeNamespaced⟩].map MetricDef.Name) ∧
    ([⟨"c", MetricScope.ScopeNamespaced⟩] = ([] : List MetricDef) →
      runDefs [⟨"c", MetricScope.ScopeNamespaced⟩] ⟨false, ""⟩ [("c", 1)] []
          (initResult ⟨"", "", "", "", "", ""⟩ [] 0 7) =
        initResult ⟨"", "", "", "", "", ""⟩ [] 0 7 ∧
      (initResult ⟨"", "", "", "", "", ""⟩ [] 0 7).Measurements = [] ∧
      (initResult ⟨"", "", "", "", "", ""⟩ [] 0 7).Skipped = [] ∧
      (initResult ⟨"", "", "", "", "", ""⟩ [] 0 7).Warnings = [] ∧
      (initResult ⟨"", "", "", "", "", ""⟩ [] 0 7).Errors = []) :=
  C10_result_maps [] ⟨"", "", "", "", "", ""⟩ [⟨"c", MetricScope.ScopeNamespaced⟩]
    ⟨false, ""⟩ [("c", 1)] [] 0 7 (by simp)

end Instrumentv2

namespace Harnessv2

open Instrumentv2

/-- A series containing a brace is a different key from a brace-free `N`. -/
theorem mk_series_ne_of_brace {series : List Char} {N : String}
    (hb : series.any (fun c => c = braceChar) = true)
    (hN : N.data.any (fun c => c = braceChar) = false) :
    String.mk series ≠ N := by
  intro h
  have hdata : series = N.data := by simpa using congrArg String.data h
  rw [hdata, hN] at hb
  cases hb

/-- The base-name prefix of a series never contains a brace. -/
theorem seriesPlain_no_brace (series : List Char) :
    (seriesPlain series).any (fun c => c = braceChar) = false := by
  rw [List.any_eq_false]
  intro x hx
  have hmem := List.mem_takeWhile_imp hx
  simp only [decide_eq_true_eq] at hmem
  simpa using hmem

/-- For a labelled series, the base-name key differs from the full key. -/
theorem mk_seriesPlain_ne {series : List Char}
    (hb : series.any (fun c => c = braceChar) = true) :
    String.mk (seriesPlain series) ≠ String.mk series := by
  intro h
  have hdata : seriesPlain series = series := by
    simpa using congrArg String.data h
  have hnb := seriesPlain_no_brace series
  rw [hdata, hb] at hnb
  cases hnb

/-- Effect of one parsed line on the map entry of a brace-free key `N`,
expressed through `lineClass`. -/
theorem parseLine_lookup (N : String)
    (hN : N.data.any (fun c => c = braceChar) = false)
    (out : MetricMap) (line : List Char) :
    mapGet (parseLine out line) N =
      match lineClass N line with
      | some (true, v) => some v
      | some (false, v) => some (mapGetD out N 0 + v)
      | none => mapGet out N := by
  unfold parseLine lineClass
  by_cases h0 : trimChars line = [] ∨ startsWithHash (trimChars line) = true
  · simp [h0]
  · simp only [if_neg h0]
    cases hf : fieldsC (trimChars line) with
    | nil => simp
    | cons series rest =>
        cases rest with
        | nil => simp
        | cons valStr rest2 =>
            cases hv : parseValue valStr with
            | none => simp only [hv]
            | some v =>
                simp only [hv]
                by_cases hb : series.any (fun c => c = braceChar) = true
                · simp only [hb, if_true]
                  have hne : N ≠ String.mk series :=
                    Ne.symm (mk_series_ne_of_brace hb hN)
                  by_cases hp : String.mk (seriesPlain series) = N
                  · rw [if_pos hp, hp, mapGet_mapSet_self]
                    have hx : mapGet (mapSet out (String.mk series) v) N =
                        mapGet out N := mapGet_mapSet_ne _ _ hne
                    simp [mapGetD, hx]
                  · rw [if_neg hp]
                    rw [mapGet_mapSet_ne _ _ (Ne.symm hp),
                      mapGet_mapSet_ne _ _ hne]
                · simp only [Bool.not_eq_true] at hb
                  simp only [hb, Bool.false_eq_true, if_false]
                  by_cases hs : String.mk series = N
                  · rw [if_pos hs, hs, mapGet_mapSet_self]
                  · rw [if_neg hs, mapGet_mapSet_ne _ _ (Ne.symm hs)]

/-- Once the aggregate for `N` holds `c`, folding lines without a bare `N`
line adds exactly the labelled contributions. -/
theorem foldl_agg_of_some (N : String)
    (hN : N.data.any (fun c => c = braceChar) = false) :
    ∀ (lines : List (List Char)) (out : MetricMap) (c : ℚ),
    mapGet out N = some c →
    (∀ l ∈ lines, ∀ v : ℚ, lineClass N l ≠ some (true, v)) →
    mapGet (List.foldl parseLine out lines) N = some (c + labeledSum N lines) := by
  intro lines
  induction lines with
  | nil =>
      intro out c hc _
      simpa [labeledSum] using hc
  | cons l rest ih =>
      intro out c hc hnb
      rw [List.foldl_cons]
      have hstep := parseLine_lookup N hN out l
      have hnbrest : ∀ l' ∈ rest, ∀ v : ℚ, lineClass N l' ≠ some (true, v) :=
        fun l' hl' => hnb l' (List.mem_cons_of_mem _ hl')
      cases hcl : lineClass N l with
      | none =>
          rw [hcl] at hstep
          rw [ih (parseLine out l) c (by rw [hstep]; exact hc) hnbrest]
          simp [labeledSum, labeledContrib, hcl]
      | some p =>
          obtain ⟨bv, v⟩ := p
          cases bv with
          | false =>
              rw [hcl] at hstep
              have hout : mapGet (parseLine out l) N = some (c + v) := by
                rw [hstep]
                simp [mapGetD, hc]
              rw [ih (parseLine out l) (c + v) hout hnbrest]
              simp only [labeledSum, List.map_cons, List.sum_cons,
                labeledContrib, hcl]
              ring_nf
          | true => exact absurd hcl (hnb l (List.mem_cons_self _ _) v)

/-- With no prior entry and no bare `N` line, the aggregate for `N` is the
sum of the labelled contributions (absent when there are none). -/
theorem foldl_agg_of_none (N : String)
    (hN : N.data.any (fun c => c = braceChar) = false) :
    ∀ (lines : List (List Char)) (out : MetricMap),
    mapGet out N = none →
    (∀ l ∈ lines, ∀ v : ℚ, lineClass N l ≠ some (true, v)) →
    mapGet (List.foldl parseLine out lines) N =
      (if lines.any (fun l => (lineClass N l).isSome) then
        some (labeledSum N lines) else none) := by
  intro lines
  induction lines with
  | nil =>
      intro out hc _
      simpa using hc
  | cons l rest ih =>
      intro out hc hnb
      rw [List.foldl_cons]
      have hstep := parseLine_lookup N hN out l
      have hnbrest : ∀ l' ∈ rest, ∀ v : ℚ, lineClass N l' ≠ some (true, v) :=
        fun l' hl' => hnb l' (List.mem_cons_of_mem _ hl')
      cases hcl : lineClass N l with
      | none =>
          rw [hcl] at hstep
          rw [ih (parseLine out l) (by rw [hstep]; exact hc) hnbrest]
          simp [labeledSum, labeledContrib, hcl, List.any_cons]
      | some p =>
          obtain ⟨bv, v⟩ := p
          cases bv with
          | false =>
              rw [hcl] at hstep
              have hout : mapGet (parseLine out l) N = some v := by
                rw [hstep]
                simp [mapGetD, hc]
              rw [foldl_agg_of_some N hN rest (parseLine out l) v hout hnbrest]
              simp [labeledSum, labeledContrib, hcl, List.any_cons]
          | true => exact absurd hcl (hnb l (List.mem_cons_self _ _) v)

end Harnessv2

namespace Harnessv2

open Instrumentv2

/-- C3 counterexample: on the line `"m 3 5"` (three whitespace-delimited
tokens) the stored value is parsed from the SECOND token (`3`), not from the
last token (`5`), contradicting "parsed from the LAST whitespace-delimited
token". -/
theorem C3_counterexample :
    ParsePrometheusText "m 3 5" = [("m", 3)] ∧
    (fieldsC (trimChars ("m 3 5".data))).getLast? = some ("5".data) ∧
    parseValue ("5".data) = some 5 ∧
    (3 : ℚ) ≠ 5 := by
  refine ⟨?_, by decide, ?_, by norm_num⟩
  · simp [ParsePrometheusText, parseLines, parseLine, fieldsC, splitBy,
      trimChars, startsWithHash, parseValue, splitAtChar, mantissaVal,
      allDigits, natOfDigits, mapSet, braceChar]
  · simp [parseValue, splitAtChar, mantissaVal, allDigits, natOfDigits]

/-- C3 (amended): for every non-comment, non-blank line with at least two
whitespace-delimited tokens, the numeric value stored for the series identity
is parsed from the SECOND token (which is the last one exactly for two-token
lines); a line whose value token fails to parse is skipped individually — it
leaves the map unchanged and the rest of the parse proceeds as if the line
were absent. -/
theorem C3_value_from_second_token (line series valStr : List Char)
    (restF : List (List Char))
    (hfields : fieldsC (trimChars line) = series :: valStr :: restF)
    (hhash : startsWithHash (trimChars line) = false) :
    (∀ (out : MetricMap) (v : ℚ), parseValue valStr = some v →
      mapGet (parseLine out line) (String.mk series) = some v) ∧
    (∀ out : MetricMap, parseValue valStr = none → parseLine out line = out) ∧
    (∀ (pre post : List (List Char)), parseValue valStr = none →
      parseLines (pre ++ line :: post) = parseLines (pre ++ post)) := by
  have hnb : ¬(trimChars line = [] ∨ startsWithHash (trimChars line) = true) := by
    rintro (h1 | h2)
    · rw [h1] at hfields
      simp [fieldsC, splitBy] at hfields
    · rw [hhash] at h2
      cases h2
  have hskip : ∀ out : MetricMap, parseValue valStr = none →
      parseLine out line = out := by
    intro out hv
    unfold parseLine
    rw [if_neg hnb, hfields]
    simp only [hv]
  refine ⟨?_, hskip, ?_⟩
  · intro out v hv
    unfold parseLine
    rw [if_neg hnb, hfields]
    simp only [hv]
    by_cases hb : series.any (fun c => c = braceChar) = true
    · simp only [hb, if_true]
      rw [mapGet_mapSet_ne _ _ (Ne.symm (mk_seriesPlain_ne hb)),
        mapGet_mapSet_self]
    · simp only [Bool.not_eq_true] at hb
      simp only [hb, Bool.false_eq_true, if_false, mapGet_mapSet_self]
  · intro pre post hv
    unfold parseLines
    rw [List.foldl_append, List.foldl_cons, hskip _ hv, ← List.foldl_append]

theorem C3_witness :
    mapGet (parseLine [] ("m 3".data)) (String.mk ("m".data)) = some 3 ∧
    parseLine [] ("m zz".data) = [] ∧
    parseLines (["a 1".data] ++ ("m zz".data) :: ["b 2".data]) =
      parseLines (["a 1".data] ++ ["b 2".data]) :=
  ⟨(C3_value_from_second_token ("m 3".data) ("m".data) ("3".data) []
      (by decide) (by decide)).1 [] 3
      (by simp [parseValue, splitAtChar, mantissaVal, allDigits, natOfDigits]),
    (C3_value_from_second_token ("m zz".data) ("m".data) ("zz".data) []
      (by decide) (by decide)).2.1 []
      (by simp [parseValue, splitAtChar, mantissaVal, allDigits, natOfDigits]),
    (C3_value_from_second_token ("m zz".data) ("m".data) ("zz".data) []
      (by decide) (by decide)).2.2 ["a 1".data] ["b 2".data]
      (by simp [parseValue, splitAtChar, mantissaVal, allDigits, natOfDigits])⟩

/-- C7: a line with a labelled series stores the fully-qualified keyed entry
with the parsed value AND accumulates the same value into the base-name
aggregate entry (a running sum on top of whatever the aggregate held); and
the concrete example from the spec:
`foo_total{pod="a"} 3 \n foo_total{pod="b"} 4` yields exactly the snapshot
with the two keyed entries and the base-name sum 7. -/
theorem C7_labelled_series_aggregate :
    (∀ (out : MetricMap) (line series valStr : List Char)
        (restF : List (List Char)) (v : ℚ),
      fieldsC (trimChars line) = series :: valStr :: restF →
      startsWithHash (trimChars line) = false →
      parseValue valStr = some v →
      series.any (fun c => c = braceChar) = true →
      mapGet (parseLine out line) (String.mk series) = some v ∧
      mapGet (parseLine out line) (String.mk (seriesPlain series)) =
        some (mapGetD out (String.mk (seriesPlain series)) 0 + v)) ∧
    ParsePrometheusText "foo_total\x7bpod=\"a\"\x7d 3\nfoo_total\x7bpod=\"b\"\x7d 4\n" =
      [("foo_total\x7bpod=\"a\"\x7d", 3), ("foo_total", 7),
        ("foo_total\x7bpod=\"b\"\x7d", 4)] := by
  constructor
  · intro out line series valStr restF v hfields hhash hv hb
    have hnb : ¬(trimChars line = [] ∨
        startsWithHash (trimChars line) = true) := by
      rintro (h1 | h2)
      · rw [h1] at hfields
        simp [fieldsC, splitBy] at hfields
      · rw [hhash] at h2
        cases h2
    constructor
    · unfold parseLine
      rw [if_neg hnb, hfields]
      simp only [hv, hb, if_true]
      rw [mapGet_mapSet_ne _ _ (Ne.symm (mk_seriesPlain_ne hb)),
        mapGet_mapSet_self]
    · unfold parseLine
      rw [if_neg hnb, hfields]
      simp only [hv, hb, if_true]
      rw [mapGet_mapSet_self]
      unfold mapGetD
      rw [mapGet_mapSet_ne _ _ (mk_seriesPlain_ne hb)]
  · simp [ParsePrometheusText, parseLines, parseLine, fieldsC, splitBy,
      trimChars, startsWithHash, parseValue, splitAtChar, mantissaVal,
      allDigits, natOfDigits, mapSet, mapGet, mapGetD, seriesPlain, braceChar]
    norm_num

theorem C7_witness :
    mapGet (parseLine [] ("q\x7bz=\"1\"\x7d 4".data))
        (String.mk ("q\x7bz=\"1\"\x7d".data)) = some 4 ∧
    mapGet (parseLine [] ("q\x7bz=\"1\"\x7d 4".data))
        (String.mk (seriesPlain ("q\x7bz=\"1\"\x7d".data))) =
      some (mapGetD [] (String.mk (seriesPlain ("q\x7bz=\"1\"\x7d".data))) 0 + 4) :=
  C7_labelled_series_aggregate.1 [] ("q\x7bz=\"1\"\x7d 4".data)
    ("q\x7bz=\"1\"\x7d".data) ("4".data) [] 4 (by decide) (by decide)
    (by simp [parseValue, splitAtChar, mantissaVal, allDigits, natOfDigits])
    (by decide)

/-- C9 counterexample: in `"m 0"` followed by `m{p="a"} 3` the base-name
entry for `m` equals the sum of its label variants (both are 3), yet a bare
line for `m` DOES appear in the input — refuting "equals the sum of the
label variants only when no bare-name line appears". -/
theorem C9_counterexample :
    mapGet (ParsePrometheusText "m 0\nm\x7bp=\"a\"\x7d 3") "m" = some 3 ∧
    labeledSum "m"
      (splitBy (fun c => c = '\n') ("m 0\nm\x7bp=\"a\"\x7d 3").data) = 3 ∧
    lineClass "m" ("m 0".data) = some (true, 0) ∧
    ("m 0".data) ∈ splitBy (fun c => c = '\n') ("m 0\nm\x7bp=\"a\"\x7d 3").data := by
  refine ⟨?_, ?_, ?_, by decide⟩
  · simp [ParsePrometheusText, parseLines, parseLine, fieldsC, splitBy,
      trimChars, startsWithHash, parseValue, splitAtChar, mantissaVal,
      allDigits, natOfDigits, mapSet, mapGet, mapGetD, seriesPlain, braceChar]
  · simp [labeledSum, labeledContrib, lineClass, fieldsC, splitBy, trimChars,
      startsWithHash, parseValue, splitAtChar, mantissaVal, allDigits,
      natOfDigits, seriesPlain, braceChar]
  · simp [lineClass, fieldsC, splitBy, trimChars, startsWithHash, parseValue,
      splitAtChar, mantissaVal, allDigits, natOfDigits, seriesPlain, braceChar]

/-- C9 (amended): for a brace-free base name `N`: a bare line for `N` sets
the entry to its own value, overwriting any accumulated aggregate; labelled
variants of `N` appearing after the bare line add on top of that value; and
the base-name entry equals the sum of the label variants WHENEVER no
bare-name line for `N` appears (a bare line generally breaks this equality,
though it can coincide with it). -/
theorem C9_bare_line_resets_aggregate (N : String)
    (hN : N.data.any (fun c => c = braceChar) = false) :
    (∀ (out : MetricMap) (line : List Char) (v : ℚ),
      lineClass N line = some (true, v) →
      mapGet (parseLine out line) N = some v) ∧
    (∀ (pre post : List (List Char)) (bare : List Char) (v : ℚ),
      lineClass N bare = some (true, v) →
      (∀ l ∈ post, ∀ w : ℚ, lineClass N l ≠ some (true, w)) →
      mapGet (parseLines (pre ++ bare :: post)) N =
        some (v + labeledSum N post)) ∧
    (∀ lines : List (List Char),
      (∀ l ∈ lines, ∀ w : ℚ, lineClass N l ≠ some (true, w)) →
      mapGet (parseLines lines) N =
        (if lines.any (fun l => (lineClass N l).isSome) then
          some (labeledSum N lines) else none)) := by
  have hpart1 : ∀ (out : MetricMap) (line : List Char) (v : ℚ),
      lineClass N line = some (true, v) →
      mapGet (parseLine out line) N = some v := by
    intro out line v hcl
    rw [parseLine_lookup N hN out line, hcl]
  refine ⟨hpart1, ?_, ?_⟩
  · intro pre post bare v hbare hnb
    unfold parseLines
    rw [List.foldl_append, List.foldl_cons]
    exact foldl_agg_of_some N hN post _ v (hpart1 _ bare v hbare) hnb
  · intro lines hnb
    exact foldl_agg_of_none N hN lines [] rfl hnb

theorem C9_witness :
    mapGet (parseLine [("x", 9)] ("x 4".data)) "x" = some 4 ∧
    mapGet (parseLines ([] ++ ("x 4".data) :: ["x\x7bq=\"1\"\x7d 2".data])) "x" =
      some (4 + labeledSum "x" ["x\x7bq=\"1\"\x7d 2".data]) ∧
    mapGet (parseLines ["x\x7bq=\"1\"\x7d 2".data]) "x" =
      (if ["x\x7bq=\"1\"\x7d 2".data].any
          (fun l => (lineClass "x" l).isSome) then
        some (labeledSum "x" ["x\x7bq=\"1\"\x7d 2".data]) else none) :=
  ⟨(C9_bare_line_resets_aggregate "x" (by decide)).1 [("x", 9)] ("x 4".data) 4
      (by simp [lineClass, fieldsC, splitBy, trimChars, startsWithHash,
        parseValue, splitAtChar, mantissaVal, allDigits, natOfDigits,
        seriesPlain, braceChar]),
    (C9_bare_line_resets_aggregate "x" (by decide)).2.1 []
      ["x\x7bq=\"1\"\x7d 2".data] ("x 4".data) 4
      (by simp [lineClass, fieldsC, splitBy, trimChars, startsWithHash,
        parseValue, splitAtChar, mantissaVal, allDigits, natOfDigits,
        seriesPlain, braceChar])
      (by
        intro l hl w
        simp only [List.mem_singleton] at hl
        subst hl
        simp [lineClass, fieldsC, splitBy, trimChars, startsWithHash,
          parseValue, splitAtChar, mantissaVal, allDigits, natOfDigits,
          seriesPlain, braceChar]),
    (C9_bare_line_resets_aggregate "x" (by decide)).2.2
      ["x\x7bq=\"1\"\x7d 2".data]
      (by
        intro l hl w
        simp only [List.mem_singleton] at hl
        subst hl
        simp [lineClass, fieldsC, splitBy, trimChars, startsWithHash,
          parseValue, splitAtChar, mantissaVal, allDigits, natOfDigits,
          seriesPlain, braceChar])⟩

end Harnessv2
